import Mathlib

/-!
Shallow embedding of the blinkchat-backend WebSocket hub, client queue and
Postgres message store, with theorems about the registry invariants, the
message fan-out paths and the soft-delete semantics.

Identifiers (UUIDs) are modelled as natural numbers, timestamps as natural
numbers, and the store collaborators as total functions returning Except
values.  Side effects are made observable: hub handlers return the ordered
list of SendMessage enqueue attempts together with the ordered list of
store-collaborator calls they issue.
-/

set_option maxHeartbeats 1000000

namespace BlinkChat

/-- Message delivery status, mirroring models.MessageStatus
(constants sent, delivered, read). -/
inductive MessageStatus where
  | sent
  | delivered
  | read
deriving DecidableEq, Repr

/-- models.PublicUser: the safe representation of a user. -/
structure PublicUser where
  id : Nat
  username : String
  email : String
  createdAt : Nat
  updatedAt : Nat
deriving DecidableEq, Repr

/-- models.User (only the fields the hub touches). -/
structure User where
  id : Nat
  username : String
  email : String
  createdAt : Nat
  updatedAt : Nat
deriving DecidableEq, Repr

/-- models.User.ToPublicUser. -/
def User.toPublicUser (u : User) : PublicUser :=
  { id := u.id, username := u.username, email := u.email,
    createdAt := u.createdAt, updatedAt := u.updatedAt }

/-- models.Message, with the fields used by the hub and the message store:
identity, owning chat, sender identity, content, creation timestamp, status,
optional populated sender, last-update timestamp, optional attachment
reference, optional deletion timestamp and the derived IsDeleted and
IsEdited flags. -/
structure Message where
  id : Nat
  chatID : Nat
  senderID : Nat
  content : String
  timestamp : Nat
  status : MessageStatus
  sender : Option PublicUser
  updatedAt : Nat
  attachmentURL : Option String
  deletedAt : Option Nat
  isDeleted : Bool
  isEdited : Bool
deriving DecidableEq, Repr

/-- models.Chat, with the fields used by the hub: identity, name, group
flag, creation and update timestamps, the per-viewer participant list, the
optional last message and the unread-count hint. -/
structure Chat where
  id : Nat
  name : String
  isGroup : Bool
  createdAt : Nat
  updatedAt : Nat
  otherParticipants : List PublicUser
  lastMessage : Option Message
  unreadCount : Nat
deriving DecidableEq, Repr

/-- websocket.NewMessagePayload. -/
structure NewMessagePayload where
  chatID : Option Nat
  receiverID : Option Nat
  content : String
  clientTempID : Option String
  attachmentURL : Option String
deriving DecidableEq, Repr

/-- websocket.MessageSentAckPayload. -/
structure MessageSentAckPayload where
  clientTempID : Option String
  serverMsgID : Nat
  chatID : Nat
  timestamp : Nat
  status : MessageStatus
  attachmentURL : Option String
deriving DecidableEq, Repr

/-- websocket.MessageStatusUpdatePayload. -/
structure MessageStatusUpdatePayload where
  messageID : Nat
  chatID : Nat
  status : MessageStatus
  userID : Nat
  timestamp : Nat
deriving DecidableEq, Repr

/-- websocket.TypingIndicatorPayload. -/
structure TypingIndicatorPayload where
  chatID : Nat
  userID : Nat
  isTyping : Bool
deriving DecidableEq, Repr

/-- The outbound message-type tag (the string constants MessageType... of
the websocket package; outbound tags per the wire protocol). -/
inductive MsgType where
  | newMessage
  | messageSentAck
  | messageStatusUpdate
  | typingIndicator
  | newChat
  | chatUpdated
  | messageUpdated
  | messageDeleted
  | error
deriving DecidableEq, Repr

/-- The payload of an outbound envelope, one constructor per payload shape
the hub produces. -/
inductive Payload where
  | errorP (message : String)
  | ackP (a : MessageSentAckPayload)
  | msgP (m : Message)
  | statusP (p : MessageStatusUpdatePayload)
  | typingP (p : TypingIndicatorPayload)
  | newChatP (c : Chat)
deriving DecidableEq, Repr

/-- websocket.Client: one live connection.  The cid field models the Go
pointer identity of the Client struct; userID is the authenticated owner. -/
structure Client where
  cid : Nat
  userID : Nat
deriving DecidableEq, Repr

/-- One call of Client.SendMessage: an attempt to enqueue an envelope onto
the outbound queue of the connection identified by cid. -/
structure SendEvent where
  cid : Nat
  type : MsgType
  payload : Payload
deriving DecidableEq, Repr

/-- A record of one store-collaborator call issued by the hub. -/
inductive StoreCall where
  | getAllParticipantsInChat (chatID : Nat)
  | getChatByParticipantIDs (ids : List Nat)
  | createChat (name : String) (isGroup : Bool) (ids : List Nat)
  | createMessage (m : Message)
  | updateParticipantReadThrough (chatID userID ts : Nat)
  | getUserByID (userID : Nat)
  | updateMessageStatus (messageID : Nat) (status : MessageStatus)
  | getMessageByID (messageID : Nat)
deriving DecidableEq, Repr

/-- Store-collaborator failures; chatNotFound and messageNotFound mirror
store.ErrChatNotFound and store.ErrMessageNotFound, any other failure is
collapsed into the other constructor. -/
inductive StoreErr where
  | chatNotFound
  | messageNotFound
  | other (s : String)
deriving DecidableEq, Repr

/-- The storage collaborator as consumed by the hub, one total function per
interface method the modelled handlers call. -/
structure StoreEnv where
  getAllParticipantsInChat : Nat → Except StoreErr (List PublicUser)
  getChatByParticipantIDs : List Nat → Except StoreErr Chat
  createChat : String → Bool → List Nat → Except StoreErr Chat
  createMessage : Message → Except StoreErr Unit
  updateParticipantReadThrough : Nat → Nat → Nat → Except StoreErr Unit
  getUserByID : Nat → Except StoreErr User
  updateMessageStatus : Nat → MessageStatus → Except StoreErr Unit
  getMessageByID : Nat → Except StoreErr Message

/-! ### Registry (Hub.clients) and its lifecycle operations -/

/-- The registry: the user-to-connection-set mapping Hub.clients, an
association list from user identity to that user's live connections. -/
abbrev Registry := List (Nat × List Client)

/-- Lookup of a user entry in the registry (Go map access h.clients[u]). -/
def lookupEntry : Registry → Nat → Option (List Client)
  | [], _ => none
  | (u, s) :: rest, v => if u = v then some s else lookupEntry rest v

/-- The connections found for a user; an absent entry behaves like the
empty set for iteration (Go: found = false skips the loop). -/
def lookupClients (r : Registry) (u : Nat) : List Client :=
  (lookupEntry r u).getD []

/-- The register branch of Hub.Run: create the entry for the user when it
is missing, then put the client into the set (map-insert is idempotent). -/
def insertClient : Registry → Client → Registry
  | [], c => [(c.userID, [c])]
  | (u, s) :: rest, c =>
    if u = c.userID then (u, if c ∈ s then s else s ++ [c]) :: rest
    else (u, s) :: insertClient rest c

/-- The unregister branch of Hub.Run: when the entry for the user exists
and contains the client, remove it (pruning the entry when the set becomes
empty); the Bool reports whether the client was removed, which is exactly
when Go closes the send channel. -/
def removeClient : Registry → Client → Registry × Bool
  | [], _ => ([], false)
  | (u, s) :: rest, c =>
    if u = c.userID then
      if c ∈ s then
        let s2 := s.erase c
        ((if s2.isEmpty then rest else (u, s2) :: rest), true)
      else ((u, s) :: rest, false)
    else
      let p := removeClient rest c
      ((u, s) :: p.1, p.2)

/-- A lifecycle event consumed by Hub.Run. -/
inductive HubOp where
  | register (c : Client)
  | deregister (c : Client)
deriving DecidableEq, Repr

/-- The hub lifecycle state: the registry plus the ordered log of send
channels closed so far. -/
structure HubState where
  registry : Registry
  closed : List Client
deriving DecidableEq, Repr

/-- One step of the Hub.Run select loop restricted to lifecycle events. -/
def hubStep (s : HubState) : HubOp → HubState
  | .register c => { s with registry := insertClient s.registry c }
  | .deregister c =>
    let p := removeClient s.registry c
    { registry := p.1, closed := s.closed ++ (if p.2 then [c] else []) }

/-- Running a sequence of lifecycle events from the empty hub. -/
def hubRun (ops : List HubOp) : HubState :=
  ops.foldl hubStep { registry := [], closed := [] }

/-- All clients currently held by the registry. -/
def allClients (r : Registry) : List Client :=
  r.flatMap (fun p => p.2)

/-- The client mentioned by a lifecycle event. -/
def HubOp.client : HubOp → Client
  | .register c => c
  | .deregister c => c

/-- Modelled from the spec: the set of live connections as the spec words
them, a flat set to which register adds a connection and from which
deregister removes it, independently of the per-user grouping the code
maintains.  Used only to compare the registry against the spec. -/
def specLiveStep (live : List Client) : HubOp → List Client
  | .register c => if c ∈ live then live else live ++ [c]
  | .deregister c => live.erase c

/-- Modelled from the spec: the live-connection set after a sequence of
lifecycle events. -/
def specLive (ops : List HubOp) : List Client :=
  ops.foldl specLiveStep []

/-- Pointer consistency of a sequence of lifecycle events: one Go pointer
(cid) always carries one owning user. -/
def CidConsistent (ops : List HubOp) : Prop :=
  ∀ c₁ ∈ ops.map HubOp.client, ∀ c₂ ∈ ops.map HubOp.client,
    c₁.cid = c₂.cid → c₁.userID = c₂.userID

/-! ### Outbound queue (Client.send) -/

/-- The outbound queue capacity fixed by NewClient (make(chan []byte, 256)). -/
def queueCapacity : Nat := 256

/-- The non-blocking enqueue of Client.SendMessage: the select with a
default branch appends when the buffered channel has room and otherwise
drops the event, leaving the queue unchanged. -/
def trySend {α : Type} (q : List α) (m : α) : List α :=
  if q.length < queueCapacity then q ++ [m] else q

/-- An action on one outbound queue: an enqueue attempt by any broadcaster
or a dequeue by the write pump (receiving from the channel; on an empty
queue the pump blocks, so the state is unchanged). -/
inductive QueueOp (α : Type) where
  | enqueue (m : α)
  | dequeue

/-- One step of the outbound queue. -/
def queueStep {α : Type} (q : List α) : QueueOp α → List α
  | .enqueue m => trySend q m
  | .dequeue => q.tail

/-- The queue contents after a sequence of actions starting empty. -/
def queueRun {α : Type} (ops : List (QueueOp α)) : List α :=
  ops.foldl queueStep []

/-- strings.TrimSpace: drop leading and trailing whitespace (executable
rendering over the character list). -/
def goTrimSpace (s : String) : String :=
  ⟨((s.data.dropWhile Char.isWhitespace).reverse.dropWhile Char.isWhitespace).reverse⟩

/-! ### Hub broadcast helpers -/

/-- cloneMessage: a deep copy of the message; on immutable values this is
the identity. -/
def cloneMessage (m : Message) : Message := m

/-- filterParticipantsForViewer: the participant list with the viewer
removed (the per-element copies are identities on immutable values). -/
def filterParticipantsForViewer (participants : List PublicUser) (viewer : Nat) :
    List PublicUser :=
  participants.filter (fun p => p.id ≠ viewer)

/-- First-occurrence deduplication, the deterministic rendering of
collecting identities into a Go map used as a set. -/
def dedupNat : List Nat → List Nat
  | [] => []
  | x :: xs => x :: (dedupNat (xs.filter (fun y => y ≠ x)))
termination_by l => l.length
decreasing_by
  simp only [List.length_cons]
  exact Nat.lt_succ_of_le (List.length_filter_le _ _)

/-- The per-target chat copy built inside BroadcastNewChat: participants
filtered for the viewer, and the unread-count hint set to one when the last
message was sent by someone else and no hint was present. -/
def newChatCopyFor (chat : Chat) (participants : List PublicUser)
    (targetID : Nat) : Chat :=
  let c0 := { chat with otherParticipants := filterParticipantsForViewer participants targetID }
  match c0.lastMessage with
  | none => c0
  | some lm =>
    let c1 := { c0 with lastMessage := some (cloneMessage lm) }
    if lm.senderID ≠ targetID ∧ c1.unreadCount = 0 then
      { c1 with unreadCount := 1 }
    else c1

/-- Hub.BroadcastNewChat with an explicit participant list (the branch the
serialized dispatch path takes): build the target set from the explicit
targets (or from the participants when none are given), excluding the
initiator, and enqueue a new_chat envelope with a per-viewer chat copy to
every live connection of every target. -/
def broadcastNewChat (reg : Registry) (chat : Chat)
    (participants : List PublicUser) (initiator : Nat)
    (explicitTargets : List Nat) : List SendEvent :=
  let targets :=
    if explicitTargets ≠ [] then
      dedupNat (explicitTargets.filter (fun i => i ≠ initiator))
    else
      dedupNat ((participants.map (fun p => p.id)).filter (fun i => i ≠ initiator))
  if targets = [] then []
  else
    targets.flatMap (fun targetID =>
      (lookupClients reg targetID).map (fun c =>
        { cid := c.cid, type := .newChat,
          payload := .newChatP (newChatCopyFor chat participants targetID) }))

/-- Hub.broadcastMessageToTargets: nothing when there are no targets;
otherwise, when a chat was newly created, fetch its participants and issue
the new_chat broadcast first, then enqueue the new_message envelope to
every live connection of every target user. -/
def broadcastMessageToTargets (env : StoreEnv) (reg : Registry)
    (message : Message) (targetUserIDs : List Nat)
    (newChatInfo : Option Chat) : List SendEvent × List StoreCall :=
  if targetUserIDs = [] then ([], [])
  else
    let ncPart : List SendEvent × List StoreCall :=
      match newChatInfo with
      | none => ([], [])
      | some chat =>
        let chatCopy := { chat with lastMessage := some (cloneMessage message) }
        match env.getAllParticipantsInChat message.chatID with
        | .error _ => ([], [.getAllParticipantsInChat message.chatID])
        | .ok participants =>
          (broadcastNewChat reg chatCopy participants message.senderID targetUserIDs,
           [.getAllParticipantsInChat message.chatID])
    let msgEvents :=
      targetUserIDs.flatMap (fun targetUserID =>
        (lookupClients reg targetUserID).map (fun c =>
          { cid := c.cid, type := .newMessage,
            payload := .msgP (cloneMessage message) }))
    (ncPart.1 ++ msgEvents, ncPart.2)

/-! ### Hub inbound handlers (the serialized dispatch path) -/

/-- The target-resolution phase of Hub.handleNewChatMessageViaWS (the
initial if/else chain): either a rejection envelope for the sender, or the
resolved chat identity, the newly created chat when one was created, and
the target user identities for the broadcast. -/
def resolveNewMessageTarget (env : StoreEnv) (sender : Client)
    (payload : NewMessagePayload) :
    List StoreCall × Except SendEvent (Nat × Option Chat × List Nat) :=
  match payload.chatID with
  | some chatID =>
    match env.getAllParticipantsInChat chatID with
    | .error _ =>
      ([.getAllParticipantsInChat chatID],
       .error { cid := sender.cid, type := .error,
                payload := .errorP "Error processing message details" })
    | .ok allParticipants =>
      ([.getAllParticipantsInChat chatID],
       .ok (chatID, none,
            (allParticipants.filter (fun p => p.id ≠ sender.userID)).map (fun p => p.id)))
  | none =>
    match payload.receiverID with
    | some receiverID =>
      if sender.userID = receiverID then
        ([], .error { cid := sender.cid, type := .error,
                      payload := .errorP "Cannot send message to yourself" })
      else
        let participantIDs := [sender.userID, receiverID]
        match env.getChatByParticipantIDs participantIDs with
        | .ok existingChat =>
          ([.getChatByParticipantIDs participantIDs],
           .ok (existingChat.id, none, [receiverID]))
        | .error .chatNotFound =>
          match env.createChat "" false participantIDs with
          | .error _ =>
            ([.getChatByParticipantIDs participantIDs,
              .createChat "" false participantIDs],
             .error { cid := sender.cid, type := .error,
                      payload := .errorP "Error creating chat for message" })
          | .ok newChat =>
            ([.getChatByParticipantIDs participantIDs,
              .createChat "" false participantIDs],
             .ok (newChat.id, some newChat, [receiverID]))
        | .error _ =>
          ([.getChatByParticipantIDs participantIDs],
           .error { cid := sender.cid, type := .error,
                    payload := .errorP "Error processing message" })
    | none =>
      ([], .error { cid := sender.cid, type := .error,
                    payload := .errorP "New message requires chatId or receiverId" })

/-- Hub.handleNewChatMessageViaWS: resolve the target, persist the message
(stopping with an error envelope on failure), advance the read watermark,
fetch the sender for display, acknowledge to the sender and broadcast.
freshMsgID models uuid.New() and now models time.Now(). -/
def handleNewChatMessageViaWS (env : StoreEnv) (reg : Registry)
    (sender : Client) (payload : NewMessagePayload)
    (freshMsgID now : Nat) : List SendEvent × List StoreCall :=
  match resolveNewMessageTarget env sender payload with
  | (calls, .error ev) => ([ev], calls)
  | (calls, .ok (chatID, createdChat, targetUserIDs)) =>
    let content := goTrimSpace payload.content
    let dbMessage : Message :=
      { id := freshMsgID, chatID := chatID, senderID := sender.userID,
        content := content, timestamp := now, status := .sent,
        sender := none, updatedAt := now,
        attachmentURL := payload.attachmentURL,
        deletedAt := none, isDeleted := false, isEdited := false }
    match env.createMessage dbMessage with
    | .error _ =>
      ([{ cid := sender.cid, type := .error,
          payload := .errorP "Failed to send message (DB error)" }],
       calls ++ [.createMessage dbMessage])
    | .ok _ =>
      let senderPub : PublicUser :=
        match env.getUserByID sender.userID with
        | .ok u => u.toPublicUser
        | .error _ =>
          { id := sender.userID, username := "Unknown", email := "",
            createdAt := 0, updatedAt := 0 }
      let dbMessage2 := { dbMessage with sender := some senderPub }
      let createdChat2 :=
        createdChat.map (fun ch => { ch with lastMessage := some dbMessage2 })
      let ackPayload : MessageSentAckPayload :=
        { clientTempID := payload.clientTempID, serverMsgID := dbMessage2.id,
          chatID := chatID, timestamp := dbMessage2.timestamp,
          status := dbMessage2.status,
          attachmentURL := dbMessage2.attachmentURL }
      let bPart := broadcastMessageToTargets env reg dbMessage2 targetUserIDs createdChat2
      ({ cid := sender.cid, type := .messageSentAck, payload := .ackP ackPayload } :: bPart.1,
       calls ++ [.createMessage dbMessage,
                 .updateParticipantReadThrough chatID sender.userID now,
                 .getUserByID sender.userID] ++ bPart.2)

/-- The new_message case of Hub.handleIncomingMessage after a successful
payload decode: reject when the trimmed content is empty and no attachment
is present, otherwise run the handler. -/
def dispatchNewMessage (env : StoreEnv) (reg : Registry) (sender : Client)
    (payload : NewMessagePayload) (freshMsgID now : Nat) :
    List SendEvent × List StoreCall :=
  if goTrimSpace payload.content = "" ∧ payload.attachmentURL = none then
    ([{ cid := sender.cid, type := .error,
        payload := .errorP "Message content or attachment required" }], [])
  else
    handleNewChatMessageViaWS env reg sender payload freshMsgID now

/-- Hub.handleMessageStatusUpdate: persist the status change (error
envelope to the sender on failure); look up the original message (silent
stop when it cannot be found); then enqueue the status-update envelope to
the connections of the original sender when that sender is not the acting
user, and always to the connections of the acting user. -/
def handleMessageStatusUpdate (env : StoreEnv) (reg : Registry)
    (sender : Client) (payload : MessageStatusUpdatePayload)
    (now : Nat) : List SendEvent × List StoreCall :=
  match env.updateMessageStatus payload.messageID payload.status with
  | .error _ =>
    ([{ cid := sender.cid, type := .error,
        payload := .errorP "Failed to update message status (DB error)" }],
     [.updateMessageStatus payload.messageID payload.status])
  | .ok _ =>
    match env.getMessageByID payload.messageID with
    | .error _ =>
      ([], [.updateMessageStatus payload.messageID payload.status,
            .getMessageByID payload.messageID])
    | .ok originalMessage =>
      let broadcastPayload : MessageStatusUpdatePayload :=
        { messageID := payload.messageID, chatID := payload.chatID,
          status := payload.status, userID := sender.userID, timestamp := now }
      let senderEvents :=
        if originalMessage.senderID ≠ sender.userID then
          (lookupClients reg originalMessage.senderID).map (fun c =>
            { cid := c.cid, type := .messageStatusUpdate,
              payload := .statusP broadcastPayload })
        else []
      let actingEvents :=
        (lookupClients reg sender.userID).map (fun c =>
          { cid := c.cid, type := .messageStatusUpdate,
            payload := .statusP broadcastPayload })
      (senderEvents ++ actingEvents,
       [.updateMessageStatus payload.messageID payload.status,
        .getMessageByID payload.messageID])

/-- Hub.handleTypingIndicator: reject an actor identity that differs from
the authenticated identity; fetch the chat participants (error envelope
when the lookup fails); broadcast the indicator to every live connection of
every participant other than the sender.  No membership check on the
sender is performed. -/
def handleTypingIndicator (env : StoreEnv) (reg : Registry)
    (sender : Client) (payload : TypingIndicatorPayload) :
    List SendEvent × List StoreCall :=
  if payload.userID ≠ sender.userID then
    ([{ cid := sender.cid, type := .error,
        payload := .errorP "Typing indicator user ID mismatch" }], [])
  else
    match env.getAllParticipantsInChat payload.chatID with
    | .error _ =>
      ([{ cid := sender.cid, type := .error,
          payload := .errorP "Chat not found for typing indicator" }],
       [.getAllParticipantsInChat payload.chatID])
    | .ok allParticipants =>
      let targetUserIDs :=
        (allParticipants.filter (fun p => p.id ≠ sender.userID)).map (fun p => p.id)
      (targetUserIDs.flatMap (fun targetUserID =>
        (lookupClients reg targetUserID).map (fun c =>
          { cid := c.cid, type := .typingIndicator, payload := .typingP payload })),
       [.getAllParticipantsInChat payload.chatID])

/-! ### PostgresMessageStore over a relational model of the messages and
users tables -/

/-- One row of the messages table. -/
structure MessageRow where
  id : Nat
  chatID : Nat
  senderID : Nat
  content : String
  status : MessageStatus
  createdAt : Nat
  updatedAt : Nat
  deletedAt : Option Nat
  attachmentURL : Option String
deriving DecidableEq, Repr

/-- One row of the users table (the columns the message queries join on). -/
structure UserRow where
  id : Nat
  username : String
  email : String
  createdAt : Nat
  updatedAt : Nat
deriving DecidableEq, Repr

/-- The database state the message store operates on. -/
structure DB where
  messages : List MessageRow
  users : List UserRow
deriving DecidableEq, Repr

/-- scanMessageWithSender: build a models.Message from a joined row; a
valid deleted_at column sets the deletion flag and clears the content, and
IsEdited is derived from the two timestamps. -/
def scanMessageWithSender (r : MessageRow) (u : UserRow) : Message :=
  { id := r.id, chatID := r.chatID, senderID := r.senderID,
    content := if r.deletedAt ≠ none then "" else r.content,
    timestamp := r.createdAt, status := r.status,
    sender := some { id := r.senderID, username := u.username,
                     email := u.email, createdAt := u.createdAt,
                     updatedAt := u.updatedAt },
    updatedAt := r.updatedAt,
    attachmentURL := r.attachmentURL,
    deletedAt := r.deletedAt,
    isDeleted := r.deletedAt ≠ none,
    isEdited := r.updatedAt ≠ r.createdAt }

/-- The inner join of messages with users on sender_id: each message row
paired with its sender row, message rows without a matching user omitted. -/
def joinRows (db : DB) : List (MessageRow × UserRow) :=
  db.messages.filterMap (fun r =>
    (db.users.find? (fun u => u.id = r.senderID)).map (fun u => (r, u)))

/-- PostgresMessageStore.GetMessageByID: the joined row with the given
identity, scanned; ErrMessageNotFound when no row matches. -/
def getMessageByID (db : DB) (messageID : Nat) : Except StoreErr Message :=
  match (joinRows db).find? (fun p => p.1.id = messageID) with
  | none => .error .messageNotFound
  | some (r, u) => .ok (scanMessageWithSender r u)

/-- Insertion into a list sorted by created_at descending (the ORDER BY
created_at DESC of the history query). -/
def insertByCreatedAtDesc (p : MessageRow × UserRow) :
    List (MessageRow × UserRow) → List (MessageRow × UserRow)
  | [] => [p]
  | q :: rest =>
    if q.1.createdAt ≤ p.1.createdAt then p :: q :: rest
    else q :: insertByCreatedAtDesc p rest

/-- Sorting by created_at descending. -/
def sortByCreatedAtDesc : List (MessageRow × UserRow) → List (MessageRow × UserRow)
  | [] => []
  | p :: rest => insertByCreatedAtDesc p (sortByCreatedAtDesc rest)

/-- PostgresMessageStore.GetMessagesByChatID: the joined rows of the chat,
ordered by created_at descending, paginated with OFFSET then LIMIT, each
scanned. -/
def getMessagesByChatID (db : DB) (chatID : Nat) (limit offset : Nat) :
    List Message :=
  ((((sortByCreatedAtDesc ((joinRows db).filter (fun p => p.1.chatID = chatID))).drop
      offset).take limit).map (fun p => scanMessageWithSender p.1 p.2))

/-- The WHERE clause of the soft-delete update: the row with the given
identity, owned by the caller and not yet deleted. -/
def softDeleteCond (messageID senderID : Nat) (r : MessageRow) : Bool :=
  r.id = messageID ∧ r.senderID = senderID ∧ r.deletedAt = none

/-- The row transformation of the soft-delete UPDATE: on a matching row,
set deleted_at and updated_at, clear content and attachment; leave any
other row unchanged. -/
def softDeleteApply (messageID senderID now : Nat) (r : MessageRow) :
    MessageRow :=
  if softDeleteCond messageID senderID r then
    { r with deletedAt := some now, updatedAt := now,
             content := "", attachmentURL := none }
  else r

/-- PostgresMessageStore.SoftDeleteMessage: set deleted_at and updated_at,
clear content and attachment on the matching row; ErrMessageNotFound (and
no change) when no row matches; on success re-read the message by
identity.  Returns the updated database together with the result. -/
def softDeleteMessage (db : DB) (messageID senderID now : Nat) :
    DB × Except StoreErr Message :=
  if db.messages.any (softDeleteCond messageID senderID) then
    let db2 : DB :=
      { db with messages :=
          db.messages.map (softDeleteApply messageID senderID now) }
    (db2, getMessageByID db2 messageID)
  else
    (db, .error .messageNotFound)

/-- PostgresMessageStore.UpdateMessageContent: reject an update carrying
neither content nor attachment; otherwise set content, attachment and
updated_at on the row with the given identity, owned by the caller and not
deleted; ErrMessageNotFound (and no change) when no row matches; on
success re-read the message. -/
def updateMessageContent (db : DB) (messageID senderID : Nat)
    (content : String) (attachmentURL : Option String) (now : Nat) :
    DB × Except StoreErr Message :=
  if content = "" ∧ attachmentURL = none then
    (db, .error (.other "message must contain content or an attachment"))
  else if db.messages.any (softDeleteCond messageID senderID) then
    let db2 : DB :=
      { db with messages := db.messages.map (fun r =>
          if softDeleteCond messageID senderID r then
            { r with content := content, attachmentURL := attachmentURL,
                     updatedAt := now }
          else r) }
    (db2, getMessageByID db2 messageID)
  else
    (db, .error .messageNotFound)

/-! ### Theorems -/

/-- One queue action keeps the length within capacity. -/
theorem queueStep_length_le {α : Type} (q : List α) (op : QueueOp α)
    (h : q.length ≤ queueCapacity) :
    (queueStep q op).length ≤ queueCapacity := by
  cases op with
  | enqueue m =>
    simp only [queueStep, trySend]
    split
    · next hlt => simpa using Nat.succ_le_of_lt hlt
    · exact h
  | dequeue =>
    simp only [queueStep, List.length_tail]
    exact le_trans (Nat.sub_le _ _) h

/-- Any queue action sequence from a within-capacity queue stays within
capacity. -/
theorem queueFold_length_le {α : Type} (ops : List (QueueOp α)) (q : List α)
    (h : q.length ≤ queueCapacity) :
    (ops.foldl queueStep q).length ≤ queueCapacity := by
  induction ops generalizing q with
  | nil => simpa using h
  | cons op rest ih => exact ih _ (queueStep_length_le _ _ h)

/-- C3: the outbound queue never exceeds its fixed capacity of 256 entries
under any sequence of enqueue attempts and write-pump dequeues, and an
enqueue attempt onto a full queue leaves the queue unchanged, dropping the
event. -/
theorem backpressure_bound :
    (∀ (α : Type) (ops : List (QueueOp α)),
        (queueRun ops).length ≤ queueCapacity) ∧
    (∀ (α : Type) (q : List α) (m : α),
        q.length = queueCapacity → trySend q m = q) := by
  constructor
  · intro α ops
    exact queueFold_length_le ops [] (by simp)
  · intro α q m h
    simp [trySend, h]

/-- Witness for the backpressure theorem at a concrete full queue. -/
theorem backpressure_bound_witness :
    (queueRun [QueueOp.enqueue 5, QueueOp.enqueue 6, QueueOp.dequeue]).length
        ≤ queueCapacity ∧
    trySend (List.replicate queueCapacity 0) 1 = List.replicate queueCapacity 0 :=
  ⟨backpressure_bound.1 Nat _,
   backpressure_bound.2 Nat (List.replicate queueCapacity 0) 1 (by simp)⟩

/-! #### Concrete fixtures for witnesses and counterexamples -/

/-- A concrete public user. -/
def pubU (n : Nat) : PublicUser :=
  { id := n, username := "u", email := "e", createdAt := 0, updatedAt := 0 }

/-- A concrete user row of the users collaborator. -/
def userW (n : Nat) : User :=
  { id := n, username := "w", email := "e", createdAt := 0, updatedAt := 0 }

/-- A concrete chat with identity 10. -/
def chat10 : Chat :=
  { id := 10, name := "", isGroup := false, createdAt := 0, updatedAt := 0,
    otherParticipants := [], lastMessage := none, unreadCount := 0 }

/-- A concrete healthy storage collaborator: chat 10 exists with
participants 1 and 2, no direct chat is found so creation returns chat 10,
and every write succeeds. -/
def envA : StoreEnv :=
  { getAllParticipantsInChat := fun c => if c = 10 then .ok [pubU 1, pubU 2] else .ok [],
    getChatByParticipantIDs := fun _ => .error .chatNotFound,
    createChat := fun _ _ _ => .ok chat10,
    createMessage := fun _ => .ok (),
    updateParticipantReadThrough := fun _ _ _ => .ok (),
    getUserByID := fun n => .ok (userW n),
    updateMessageStatus := fun _ _ => .ok (),
    getMessageByID := fun _ => .error .messageNotFound }

/-- C5 counterexample: a new-message event from user 1 carrying both the
chat identity 10 and receiverId 1 (the sender itself) takes the chat-id
branch, so storage-collaborator calls are made and no error envelope is
sent, contrary to the claim. -/
theorem self_message_rejection_counterexample :
    (dispatchNewMessage envA [] { cid := 100, userID := 1 }
        { chatID := some 10, receiverID := some 1, content := "hi",
          clientTempID := none, attachmentURL := none } 77 5).2 ≠ [] ∧
    (∀ e ∈ (dispatchNewMessage envA [] { cid := 100, userID := 1 }
        { chatID := some 10, receiverID := some 1, content := "hi",
          clientTempID := none, attachmentURL := none } 77 5).1,
      e.type ≠ MsgType.error) := by
  constructor
  · decide
  · decide

/-- C5 amended: a new-message event that carries no chat identity and
whose receiverId equals the sending connection user identity yields
exactly one error envelope to the sender and zero storage-collaborator
calls. -/
theorem self_message_rejection_amended (env : StoreEnv) (reg : Registry)
    (sender : Client) (payload : NewMessagePayload) (freshMsgID now : Nat)
    (hchat : payload.chatID = none)
    (hrecv : payload.receiverID = some sender.userID) :
    ∃ msg : String,
      dispatchNewMessage env reg sender payload freshMsgID now =
        ([{ cid := sender.cid, type := .error, payload := .errorP msg }], []) := by
  unfold dispatchNewMessage
  split
  · exact ⟨"Message content or attachment required", rfl⟩
  · refine ⟨"Cannot send message to yourself", ?_⟩
    unfold handleNewChatMessageViaWS resolveNewMessageTarget
    rw [hchat, hrecv]
    simp

/-- Witness for the amended self-message rejection at a concrete input. -/
theorem self_message_rejection_amended_witness :
    ∃ msg : String,
      dispatchNewMessage envA [] { cid := 100, userID := 1 }
        { chatID := none, receiverID := some 1, content := "hi",
          clientTempID := none, attachmentURL := none } 77 5 =
        ([{ cid := 100, type := .error, payload := .errorP msg }], []) :=
  self_message_rejection_amended envA [] { cid := 100, userID := 1 }
    { chatID := none, receiverID := some 1, content := "hi",
      clientTempID := none, attachmentURL := none } 77 5 rfl rfl

/-- C7 counterexample: user 1 sends a typing indicator for chat 10 whose
participants are users 2 and 3 only (user 1 is not a participant); the
code sends no error envelope to user 1 and broadcasts the indicator to the
connections of users 2 and 3. -/
def envTyping : StoreEnv :=
  { envA with getAllParticipantsInChat := fun c =>
      if c = 10 then .ok [pubU 2, pubU 3] else .ok [] }

/-- C7 counterexample theorem: at the concrete input above, the sender
receives no error envelope and a typing-indicator envelope is broadcast,
contradicting the claim. -/
theorem typing_nonparticipant_counterexample :
    (∀ e ∈ (handleTypingIndicator envTyping
        [(2, [{ cid := 5, userID := 2 }]), (3, [{ cid := 6, userID := 3 }])]
        { cid := 100, userID := 1 }
        { chatID := 10, userID := 1, isTyping := true }).1,
      e.type ≠ MsgType.error) ∧
    (∃ e ∈ (handleTypingIndicator envTyping
        [(2, [{ cid := 5, userID := 2 }]), (3, [{ cid := 6, userID := 3 }])]
        { cid := 100, userID := 1 }
        { chatID := 10, userID := 1, isTyping := true }).1,
      e.type = MsgType.typingIndicator ∧ e.cid ≠ 100) := by
  constructor
  · decide
  · decide

/-- C7 amended: for a typing indicator whose payload actor matches the
authenticated identity, an error envelope is sent to the sender exactly
when the participants lookup fails; when the lookup succeeds the indicator
is broadcast to every live connection of every returned participant other
than the sender, with no membership check on the sender. -/
theorem typing_indicator_dispatch (env : StoreEnv) (reg : Registry)
    (sender : Client) (payload : TypingIndicatorPayload)
    (hid : payload.userID = sender.userID) :
    (∀ err, env.getAllParticipantsInChat payload.chatID = .error err →
      handleTypingIndicator env reg sender payload =
        ([{ cid := sender.cid, type := .error,
            payload := .errorP "Chat not found for typing indicator" }],
         [.getAllParticipantsInChat payload.chatID])) ∧
    (∀ ps, env.getAllParticipantsInChat payload.chatID = .ok ps →
      handleTypingIndicator env reg sender payload =
        (((ps.filter (fun p => p.id ≠ sender.userID)).map (fun p => p.id)).flatMap
            (fun targetUserID =>
              (lookupClients reg targetUserID).map (fun c =>
                { cid := c.cid, type := .typingIndicator,
                  payload := .typingP payload })),
         [.getAllParticipantsInChat payload.chatID])) := by
  constructor
  · intro err herr
    unfold handleTypingIndicator
    rw [if_neg (by simp [hid]), herr]
  · intro ps hps
    unfold handleTypingIndicator
    rw [if_neg (by simp [hid]), hps]

/-- Witness for the amended typing-indicator theorem at a concrete input. -/
theorem typing_indicator_dispatch_witness :
    handleTypingIndicator envTyping [(2, [{ cid := 5, userID := 2 }])]
        { cid := 100, userID := 1 }
        { chatID := 10, userID := 1, isTyping := true } =
      ([{ cid := 5, type := .typingIndicator,
          payload := .typingP { chatID := 10, userID := 1, isTyping := true } }],
       [.getAllParticipantsInChat 10]) := by
  have h := (typing_indicator_dispatch envTyping
    [(2, [{ cid := 5, userID := 2 }])] { cid := 100, userID := 1 }
    { chatID := 10, userID := 1, isTyping := true } rfl).2 [pubU 2, pubU 3] rfl
  rw [h]
  decide

/-- C4: when target resolution succeeds and the message-creation call of
the storage collaborator fails, the handler emits exactly one envelope: an
error envelope to the sender; no acknowledgement and no broadcast occur. -/
theorem persistence_failure_no_broadcast (env : StoreEnv) (reg : Registry)
    (sender : Client) (payload : NewMessagePayload) (freshMsgID now : Nat)
    (calls0 : List StoreCall) (chatID : Nat) (createdChat : Option Chat)
    (targetUserIDs : List Nat)
    (hres : resolveNewMessageTarget env sender payload =
      (calls0, .ok (chatID, createdChat, targetUserIDs)))
    (hfail : ∀ m : Message, ∃ err, env.createMessage m = .error err) :
    (handleNewChatMessageViaWS env reg sender payload freshMsgID now).1 =
      [{ cid := sender.cid, type := .error,
         payload := .errorP "Failed to send message (DB error)" }] := by
  unfold handleNewChatMessageViaWS
  rw [hres]
  obtain ⟨err, herr⟩ := hfail
    { id := freshMsgID, chatID := chatID, senderID := sender.userID,
      content := goTrimSpace payload.content, timestamp := now,
      status := .sent, sender := none, updatedAt := now,
      attachmentURL := payload.attachmentURL,
      deletedAt := none, isDeleted := false, isEdited := false }
  simp only [herr]

/-- A storage collaborator whose message creation always fails. -/
def envCreateFail : StoreEnv :=
  { envA with createMessage := fun _ => .error (.other "insert failed") }

/-- Witness for the persistence-failure theorem at a concrete input. -/
theorem persistence_failure_no_broadcast_witness :
    (handleNewChatMessageViaWS envCreateFail [] { cid := 100, userID := 1 }
        { chatID := some 10, receiverID := none, content := "hi",
          clientTempID := none, attachmentURL := none } 77 5).1 =
      [{ cid := 100, type := .error,
         payload := .errorP "Failed to send message (DB error)" }] :=
  persistence_failure_no_broadcast envCreateFail [] { cid := 100, userID := 1 }
    { chatID := some 10, receiverID := none, content := "hi",
      clientTempID := none, attachmentURL := none } 77 5
    [.getAllParticipantsInChat 10] 10 none [2]
    rfl (fun _ => ⟨.other "insert failed", rfl⟩)

/-- C6: after a successful status persist, when the original message is
found the status-update envelope is enqueued to every live connection of
the original sender exactly when that sender differs from the acting user,
and always to every live connection of the acting user; when the original
message cannot be located no envelope is enqueued at all. -/
theorem status_update_fanout (env : StoreEnv) (reg : Registry)
    (sender : Client) (payload : MessageStatusUpdatePayload) (now : Nat)
    (hok : env.updateMessageStatus payload.messageID payload.status = .ok ()) :
    (∀ originalMessage,
      env.getMessageByID payload.messageID = .ok originalMessage →
      (handleMessageStatusUpdate env reg sender payload now).1 =
        (if originalMessage.senderID ≠ sender.userID then
          (lookupClients reg originalMessage.senderID).map (fun c =>
            { cid := c.cid, type := .messageStatusUpdate,
              payload := .statusP
                { messageID := payload.messageID, chatID := payload.chatID,
                  status := payload.status, userID := sender.userID,
                  timestamp := now } })
        else []) ++
        (lookupClients reg sender.userID).map (fun c =>
          { cid := c.cid, type := .messageStatusUpdate,
            payload := .statusP
              { messageID := payload.messageID, chatID := payload.chatID,
                status := payload.status, userID := sender.userID,
                timestamp := now } })) ∧
    (∀ err, env.getMessageByID payload.messageID = .error err →
      (handleMessageStatusUpdate env reg sender payload now).1 = []) := by
  constructor
  · intro originalMessage hmsg
    unfold handleMessageStatusUpdate
    rw [hok, hmsg]
  · intro err hmsg
    unfold handleMessageStatusUpdate
    rw [hok, hmsg]

/-- A storage collaborator where message 7 exists and was sent by user 2. -/
def envStatus : StoreEnv :=
  { envA with getMessageByID := fun m =>
      if m = 7 then
        Except.ok { id := 7, chatID := 10, senderID := 2, content := "hi",
                    timestamp := 1, status := .sent, sender := none,
                    updatedAt := 1, attachmentURL := none, deletedAt := none,
                    isDeleted := false, isEdited := false }
      else .error .messageNotFound }

/-- Witness for the status-update fan-out at a concrete input: user 1 acts
on message 7 sent by user 2; both broadcasts happen. -/
theorem status_update_fanout_witness :
    (handleMessageStatusUpdate envStatus
        [(2, [{ cid := 5, userID := 2 }]), (1, [{ cid := 4, userID := 1 }])]
        { cid := 4, userID := 1 }
        { messageID := 7, chatID := 10, status := .read, userID := 1,
          timestamp := 0 } 9).1 =
      [{ cid := 5, type := .messageStatusUpdate,
         payload := .statusP { messageID := 7, chatID := 10, status := .read,
                               userID := 1, timestamp := 9 } },
       { cid := 4, type := .messageStatusUpdate,
         payload := .statusP { messageID := 7, chatID := 10, status := .read,
                               userID := 1, timestamp := 9 } }] := by
  have h := (status_update_fanout envStatus
    [(2, [{ cid := 5, userID := 2 }]), (1, [{ cid := 4, userID := 1 }])]
    { cid := 4, userID := 1 }
    { messageID := 7, chatID := 10, status := .read, userID := 1,
      timestamp := 0 } 9 rfl).1
    { id := 7, chatID := 10, senderID := 2, content := "hi",
      timestamp := 1, status := .sent, sender := none,
      updatedAt := 1, attachmentURL := none, deletedAt := none,
      isDeleted := false, isEdited := false } rfl
  rw [h]
  decide

/-- The message record built by handleNewChatMessageViaWS before
persistence (uuid.New() modelled by freshMsgID, time.Now() by now). -/
def builtDbMessage (sender : Client) (payload : NewMessagePayload)
    (chatID freshMsgID now : Nat) : Message :=
  { id := freshMsgID, chatID := chatID, senderID := sender.userID,
    content := goTrimSpace payload.content, timestamp := now,
    status := .sent, sender := none, updatedAt := now,
    attachmentURL := payload.attachmentURL,
    deletedAt := none, isDeleted := false, isEdited := false }

/-- The built message enriched with the fetched sender details. -/
def enrichedDbMessage (sender : Client) (payload : NewMessagePayload)
    (chatID freshMsgID now : Nat) (pub : PublicUser) : Message :=
  { builtDbMessage sender payload chatID freshMsgID now with sender := some pub }

/-- A chat with its last-message field set. -/
def chatWithLastMessage (c : Chat) (m : Message) : Chat :=
  { c with lastMessage := some m }

/-- The per-viewer chat copy keeps the chat identity. -/
theorem newChatCopyFor_id (chat : Chat) (ps : List PublicUser) (t : Nat) :
    (newChatCopyFor chat ps t).id = chat.id := by
  unfold newChatCopyFor
  rcases h : chat.lastMessage with _ | lm <;> simp [h]
  split <;> rfl

/-- C2: user A with no prior direct conversation with B sends a
new-message event with receiverId B and non-empty content; persistence
succeeds; then A receives a message_sent_ack carrying the created chat
identity and the client temporary correlation id, and every live
connection of B is enqueued a new_chat envelope followed by a new_message
envelope, both carrying the created chat identity, the message carrying
the trimmed content. -/
theorem new_direct_message_success (env : StoreEnv) (reg : Registry)
    (sender : Client) (payload : NewMessagePayload) (freshMsgID now : Nat)
    (b : Nat) (newChat : Chat) (u : User) (ps : List PublicUser)
    (hchat : payload.chatID = none)
    (hrecv : payload.receiverID = some b)
    (hne : sender.userID ≠ b)
    (hcontent : goTrimSpace payload.content ≠ "")
    (hfind : env.getChatByParticipantIDs [sender.userID, b] = .error .chatNotFound)
    (hcreate : env.createChat "" false [sender.userID, b] = .ok newChat)
    (hpersist : ∀ m : Message, env.createMessage m = .ok ())
    (huser : env.getUserByID sender.userID = .ok u)
    (hparts : env.getAllParticipantsInChat newChat.id = .ok ps) :
    ∃ (ack : MessageSentAckPayload) (chatCopy : Chat) (dbMsg : Message),
      (dispatchNewMessage env reg sender payload freshMsgID now).1 =
        { cid := sender.cid, type := .messageSentAck, payload := .ackP ack } ::
        ((lookupClients reg b).map (fun c =>
            { cid := c.cid, type := .newChat, payload := .newChatP chatCopy }) ++
         (lookupClients reg b).map (fun c =>
            { cid := c.cid, type := .newMessage, payload := .msgP dbMsg })) ∧
      ack.chatID = newChat.id ∧
      ack.clientTempID = payload.clientTempID ∧
      chatCopy.id = newChat.id ∧
      dbMsg.chatID = newChat.id ∧
      dbMsg.content = goTrimSpace payload.content := by
  have hres : resolveNewMessageTarget env sender payload =
      ([.getChatByParticipantIDs [sender.userID, b],
        .createChat "" false [sender.userID, b]],
       .ok (newChat.id, some newChat, [b])) := by
    unfold resolveNewMessageTarget
    rw [hchat, hrecv]
    simp [hne, hfind, hcreate]
  refine ⟨{ clientTempID := payload.clientTempID, serverMsgID := freshMsgID,
            chatID := newChat.id, timestamp := now, status := .sent,
            attachmentURL := payload.attachmentURL },
          newChatCopyFor
            (chatWithLastMessage newChat
              (enrichedDbMessage sender payload newChat.id freshMsgID now
                u.toPublicUser)) ps b,
          enrichedDbMessage sender payload newChat.id freshMsgID now u.toPublicUser,
          ?_, rfl, rfl, by rw [newChatCopyFor_id]; rfl, rfl, rfl⟩
  unfold dispatchNewMessage
  rw [if_neg (fun h => hcontent h.1)]
  unfold handleNewChatMessageViaWS
  rw [hres]
  simp only [hpersist, huser]
  unfold broadcastMessageToTargets
  simp only [hparts]
  unfold broadcastNewChat
  simp [cloneMessage, dedupNat, Ne.symm hne, User.toPublicUser, builtDbMessage,
        enrichedDbMessage, chatWithLastMessage]

/-- Witness for the new-direct-message success path at a concrete input:
user 1 messages user 2, who has one live connection. -/
theorem new_direct_message_success_witness :
    ∃ (ack : MessageSentAckPayload) (chatCopy : Chat) (dbMsg : Message),
      (dispatchNewMessage envA [(2, [{ cid := 5, userID := 2 }])]
          { cid := 100, userID := 1 }
          { chatID := none, receiverID := some 2, content := "hi",
            clientTempID := some "t1", attachmentURL := none } 77 5).1 =
        { cid := 100, type := .messageSentAck, payload := .ackP ack } ::
        ((lookupClients [(2, [{ cid := 5, userID := 2 }])] 2).map (fun c =>
            { cid := c.cid, type := .newChat, payload := .newChatP chatCopy }) ++
         (lookupClients [(2, [{ cid := 5, userID := 2 }])] 2).map (fun c =>
            { cid := c.cid, type := .newMessage, payload := .msgP dbMsg })) ∧
      ack.chatID = chat10.id ∧
      ack.clientTempID = some "t1" ∧
      chatCopy.id = chat10.id ∧
      dbMsg.chatID = chat10.id ∧
      dbMsg.content = goTrimSpace "hi" :=
  new_direct_message_success envA [(2, [{ cid := 5, userID := 2 }])]
    { cid := 100, userID := 1 }
    { chatID := none, receiverID := some 2, content := "hi",
      clientTempID := some "t1", attachmentURL := none }
    77 5 2 chat10 (userW 1) [pubU 1, pubU 2]
    rfl rfl (by decide) (by decide) rfl rfl (fun _ => rfl) rfl rfl

/-! #### Registry invariant lemmas -/

/-- Well-formedness of the registry: every entry set is nonempty, the user
keys are distinct, every client sits under its own user key, and each set
is duplicate-free. -/
def RegWF (r : Registry) : Prop :=
  (∀ p ∈ r, p.2 ≠ []) ∧
  ((r.map Prod.fst).Nodup) ∧
  (∀ p ∈ r, ∀ c ∈ p.2, c.userID = p.1) ∧
  (∀ p ∈ r, p.2.Nodup)

theorem mem_allClients (r : Registry) (c : Client) :
    c ∈ allClients r ↔ ∃ p ∈ r, c ∈ p.2 := by
  simp [allClients, List.mem_flatMap]

theorem mem_allClients_insert (r : Registry) (c0 c : Client) :
    c ∈ allClients (insertClient r c0) ↔ c ∈ allClients r ∨ c = c0 := by
  induction r with
  | nil => simp [insertClient, allClients]
  | cons p rest ih =>
    obtain ⟨u, s⟩ := p
    by_cases h : u = c0.userID
    · by_cases hc : c0 ∈ s
      · simp only [insertClient, if_pos h, if_pos hc, allClients,
          List.flatMap_cons, List.mem_append]
        constructor
        · intro hmem
          rcases hmem with hs | hrest
          · exact Or.inl (Or.inl hs)
          · exact Or.inl (Or.inr hrest)
        · intro hmem
          rcases hmem with (hs | hrest) | heq
          · exact Or.inl hs
          · exact Or.inr hrest
          · exact Or.inl (heq ▸ hc)
      · simp only [insertClient, if_pos h, if_neg hc, allClients,
          List.flatMap_cons, List.mem_append, List.mem_singleton]
        tauto
    · simp only [insertClient, if_neg h, allClients, List.flatMap_cons,
        List.mem_append]
      simp only [allClients] at ih
      rw [ih]
      tauto

theorem lookupEntry_isSome_iff_keys (r : Registry) (u : Nat) :
    (lookupEntry r u).isSome ↔ u ∈ r.map Prod.fst := by
  induction r with
  | nil => simp [lookupEntry]
  | cons p rest ih =>
    obtain ⟨k, s⟩ := p
    by_cases h : k = u
    · simp [lookupEntry, h]
    · simp [lookupEntry, h, ih, Ne.symm h]

theorem insertClient_keys (r : Registry) (c : Client) :
    (insertClient r c).map Prod.fst =
      if (lookupEntry r c.userID).isSome then r.map Prod.fst
      else r.map Prod.fst ++ [c.userID] := by
  induction r with
  | nil => simp [insertClient, lookupEntry]
  | cons p rest ih =>
    obtain ⟨k, s⟩ := p
    by_cases h : k = c.userID
    · simp [insertClient, lookupEntry, h]
    · simp only [insertClient, if_neg h, lookupEntry, List.map_cons, ih]
      split <;> simp

theorem insertClient_nonempty (r : Registry) (c : Client)
    (hne : ∀ p ∈ r, p.2 ≠ []) : ∀ p ∈ insertClient r c, p.2 ≠ [] := by
  induction r with
  | nil =>
    intro p hp
    simp only [insertClient, List.mem_singleton] at hp
    subst hp
    simp
  | cons q rest ih =>
    obtain ⟨u, s⟩ := q
    intro p hp
    by_cases hu : u = c.userID
    · simp only [insertClient, if_pos hu, List.mem_cons] at hp
      rcases hp with hp | hp
      · subst hp
        split
        · exact hne (u, s) (by simp)
        · simp
      · exact hne p (List.mem_cons_of_mem _ hp)
    · simp only [insertClient, if_neg hu, List.mem_cons] at hp
      rcases hp with hp | hp
      · exact hne p (hp ▸ by simp)
      · exact ih (fun q hq => hne q (List.mem_cons_of_mem _ hq)) p hp

theorem insertClient_own (r : Registry) (c : Client)
    (hown : ∀ p ∈ r, ∀ cc ∈ p.2, cc.userID = p.1) :
    ∀ p ∈ insertClient r c, ∀ cc ∈ p.2, cc.userID = p.1 := by
  induction r with
  | nil =>
    intro p hp cc hcc
    simp only [insertClient, List.mem_singleton] at hp
    subst hp
    simp only [List.mem_singleton] at hcc
    simp [hcc]
  | cons q rest ih =>
    obtain ⟨u, s⟩ := q
    intro p hp cc hcc
    by_cases hu : u = c.userID
    · simp only [insertClient, if_pos hu, List.mem_cons] at hp
      rcases hp with hp | hp
      · subst hp
        simp only at hcc
        split at hcc
        · exact hown (u, s) (by simp) cc hcc
        · rcases List.mem_append.mp hcc with hcs | hc1
          · exact hown (u, s) (by simp) cc hcs
          · simp only [List.mem_singleton] at hc1
            subst hc1
            simp [hu]
      · exact hown p (List.mem_cons_of_mem _ hp) cc hcc
    · simp only [insertClient, if_neg hu, List.mem_cons] at hp
      rcases hp with hp | hp
      · exact hown p (hp ▸ by simp) cc hcc
      · exact ih (fun q hq cc2 hcc2 => hown q (List.mem_cons_of_mem _ hq) cc2 hcc2)
          p hp cc hcc

theorem insertClient_sets_nodup (r : Registry) (c : Client)
    (hnodup : ∀ p ∈ r, p.2.Nodup) :
    ∀ p ∈ insertClient r c, p.2.Nodup := by
  induction r with
  | nil =>
    intro p hp
    simp only [insertClient, List.mem_singleton] at hp
    subst hp
    simp
  | cons q rest ih =>
    obtain ⟨u, s⟩ := q
    intro p hp
    by_cases hu : u = c.userID
    · simp only [insertClient, if_pos hu, List.mem_cons] at hp
      rcases hp with hp | hp
      · subst hp
        simp only
        split
        · exact hnodup (u, s) (by simp)
        · next hcs =>
          refine List.Nodup.append (hnodup (u, s) (by simp)) (by simp) ?_
          intro a ha hb
          simp only [List.mem_singleton] at hb
          subst hb
          exact hcs ha
      · exact hnodup p (List.mem_cons_of_mem _ hp)
    · simp only [insertClient, if_neg hu, List.mem_cons] at hp
      rcases hp with hp | hp
      · exact hnodup p (hp ▸ by simp)
      · exact ih (fun q hq => hnodup q (List.mem_cons_of_mem _ hq)) p hp

theorem regWF_insert (r : Registry) (c : Client) (h : RegWF r) :
    RegWF (insertClient r c) := by
  obtain ⟨hne, hkeys, hown, hnodup⟩ := h
  refine ⟨insertClient_nonempty r c hne, ?_, insertClient_own r c hown,
    insertClient_sets_nodup r c hnodup⟩
  rw [insertClient_keys]
  split
  · exact hkeys
  · next hns =>
    refine List.Nodup.append hkeys (by simp) ?_
    intro a ha hb
    simp only [List.mem_singleton] at hb
    subst hb
    exact hns ((lookupEntry_isSome_iff_keys r c.userID).mpr ha)

theorem removeClient_not_mem_eq (r : Registry) (c : Client)
    (h : c ∉ allClients r) : removeClient r c = (r, false) := by
  induction r with
  | nil => rfl
  | cons q rest ih =>
    obtain ⟨u, s⟩ := q
    simp only [allClients, List.flatMap_cons, List.mem_append] at h
    push_neg at h
    obtain ⟨hs, hrest⟩ := h
    by_cases hu : u = c.userID
    · simp only [removeClient, if_pos hu, if_neg hs]
    · simp only [removeClient, if_neg hu]
      rw [ih (by simpa [allClients] using hrest)]

theorem removeClient_nonempty (r : Registry) (c : Client)
    (hne : ∀ p ∈ r, p.2 ≠ []) : ∀ p ∈ (removeClient r c).1, p.2 ≠ [] := by
  induction r with
  | nil => intro p hp; simp [removeClient] at hp
  | cons q rest ih =>
    obtain ⟨u, s⟩ := q
    intro p hp
    by_cases hu : u = c.userID
    · by_cases hc : c ∈ s
      · simp only [removeClient, if_pos hu, if_pos hc] at hp
        split at hp
        · exact hne p (List.mem_cons_of_mem _ hp)
        · next hse =>
          rcases List.mem_cons.mp hp with hp | hp
          · subst hp
            intro habs
            apply hse
            have he : s.erase c = [] := habs
            rw [he]
            rfl
          · exact hne p (List.mem_cons_of_mem _ hp)
      · simp only [removeClient, if_pos hu, if_neg hc] at hp
        exact hne p hp
    · simp only [removeClient, if_neg hu] at hp
      rcases List.mem_cons.mp hp with hp | hp
      · exact hne p (hp ▸ by simp)
      · exact ih (fun q hq => hne q (List.mem_cons_of_mem _ hq)) p hp

theorem removeClient_keys_sublist (r : Registry) (c : Client) :
    ((removeClient r c).1.map Prod.fst).Sublist (r.map Prod.fst) := by
  induction r with
  | nil => simp [removeClient]
  | cons q rest ih =>
    obtain ⟨u, s⟩ := q
    by_cases hu : u = c.userID
    · by_cases hc : c ∈ s
      · simp only [removeClient, if_pos hu, if_pos hc]
        split
        · exact (List.sublist_cons_self _ _)
        · simp
      · simp [removeClient, if_pos hu, if_neg hc]
    · simp only [removeClient, if_neg hu, List.map_cons]
      exact ih.cons₂ u

theorem removeClient_own (r : Registry) (c : Client)
    (hown : ∀ p ∈ r, ∀ cc ∈ p.2, cc.userID = p.1) :
    ∀ p ∈ (removeClient r c).1, ∀ cc ∈ p.2, cc.userID = p.1 := by
  induction r with
  | nil => intro p hp; simp [removeClient] at hp
  | cons q rest ih =>
    obtain ⟨u, s⟩ := q
    intro p hp cc hcc
    by_cases hu : u = c.userID
    · by_cases hc : c ∈ s
      · simp only [removeClient, if_pos hu, if_pos hc] at hp
        split at hp
        · exact hown p (List.mem_cons_of_mem _ hp) cc hcc
        · rcases List.mem_cons.mp hp with hp | hp
          · subst hp
            exact hown (u, s) (by simp) cc (List.mem_of_mem_erase hcc)
          · exact hown p (List.mem_cons_of_mem _ hp) cc hcc
      · simp only [removeClient, if_pos hu, if_neg hc] at hp
        exact hown p hp cc hcc
    · simp only [removeClient, if_neg hu] at hp
      rcases List.mem_cons.mp hp with hp | hp
      · exact hown p (hp ▸ by simp) cc hcc
      · exact ih (fun q hq cc2 hcc2 => hown q (List.mem_cons_of_mem _ hq) cc2 hcc2)
          p hp cc hcc

theorem removeClient_sets_nodup (r : Registry) (c : Client)
    (hnodup : ∀ p ∈ r, p.2.Nodup) :
    ∀ p ∈ (removeClient r c).1, p.2.Nodup := by
  induction r with
  | nil => intro p hp; simp [removeClient] at hp
  | cons q rest ih =>
    obtain ⟨u, s⟩ := q
    intro p hp
    by_cases hu : u = c.userID
    · by_cases hc : c ∈ s
      · simp only [removeClient, if_pos hu, if_pos hc] at hp
        split at hp
        · exact hnodup p (List.mem_cons_of_mem _ hp)
        · rcases List.mem_cons.mp hp with hp | hp
          · subst hp
            exact (hnodup (u, s) (by simp)).erase c
          · exact hnodup p (List.mem_cons_of_mem _ hp)
      · simp only [removeClient, if_pos hu, if_neg hc] at hp
        exact hnodup p hp
    · simp only [removeClient, if_neg hu] at hp
      rcases List.mem_cons.mp hp with hp | hp
      · exact hnodup p (hp ▸ by simp)
      · exact ih (fun q hq => hnodup q (List.mem_cons_of_mem _ hq)) p hp

theorem regWF_remove (r : Registry) (c : Client) (h : RegWF r) :
    RegWF (removeClient r c).1 := by
  obtain ⟨hne, hkeys, hown, hnodup⟩ := h
  exact ⟨removeClient_nonempty r c hne,
    hkeys.sublist (removeClient_keys_sublist r c),
    removeClient_own r c hown,
    removeClient_sets_nodup r c hnodup⟩

theorem regWF_tail (q : Nat × List Client) (rest : Registry)
    (h : RegWF (q :: rest)) : RegWF rest := by
  obtain ⟨hne, hkeys, hown, hnodup⟩ := h
  exact ⟨fun p hp => hne p (List.mem_cons_of_mem _ hp),
    (by simpa using hkeys.of_cons),
    fun p hp cc hcc => hown p (List.mem_cons_of_mem _ hp) cc hcc,
    fun p hp => hnodup p (List.mem_cons_of_mem _ hp)⟩

theorem mem_removeClient_of_ne (r : Registry) (c0 c : Client) (hne : c ≠ c0) :
    c ∈ allClients (removeClient r c0).1 ↔ c ∈ allClients r := by
  induction r with
  | nil => simp [removeClient]
  | cons q rest ih =>
    obtain ⟨u, s⟩ := q
    by_cases hu : u = c0.userID
    · by_cases hc : c0 ∈ s
      · simp only [removeClient, if_pos hu, if_pos hc]
        split
        · next hse =>
          have he : s.erase c0 = [] := List.isEmpty_iff.mp hse
          simp only [allClients, List.flatMap_cons, List.mem_append]
          constructor
          · intro h2
            exact Or.inr h2
          · intro h2
            rcases h2 with h2 | h2
            · exfalso
              have : c ∈ s.erase c0 := (List.mem_erase_of_ne hne).mpr h2
              rw [he] at this
              exact List.not_mem_nil c this
            · exact h2
        · simp only [allClients, List.flatMap_cons, List.mem_append,
            List.mem_erase_of_ne hne]
      · simp only [removeClient, if_pos hu, if_neg hc]
    · simp only [removeClient, if_neg hu, allClients, List.flatMap_cons,
        List.mem_append]
      simp only [allClients] at ih
      rw [ih]

theorem not_mem_removeClient (r : Registry) (c : Client) (hwf : RegWF r) :
    c ∉ allClients (removeClient r c).1 := by
  induction r with
  | nil => simp [removeClient, allClients]
  | cons q rest ih =>
    obtain ⟨u, s⟩ := q
    obtain ⟨hne2, hkeys, hown, hnodup⟩ := hwf
    have hkeyrest : ∀ p ∈ rest, p.1 ≠ u := by
      intro p hp habs
      have : u ∈ rest.map Prod.fst := habs ▸ List.mem_map_of_mem Prod.fst hp
      simp only [List.map_cons, List.nodup_cons] at hkeys
      exact hkeys.1 this
    have hcrest : c.userID = u → c ∉ allClients rest := by
      intro huid hmem
      rcases (mem_allClients rest c).mp hmem with ⟨p, hp, hcp⟩
      exact hkeyrest p hp ((hown p (List.mem_cons_of_mem _ hp) c hcp).symm.trans huid)
    by_cases hu : u = c.userID
    · by_cases hc : c ∈ s
      · simp only [removeClient, if_pos hu, if_pos hc]
        split
        · intro hmem
          exact hcrest hu.symm hmem
        · simp only [allClients, List.flatMap_cons, List.mem_append]
          rintro (h2 | h2)
          · exact (hnodup (u, s) (by simp)).not_mem_erase h2
          · exact hcrest hu.symm (by simpa [allClients] using h2)
      · simp only [removeClient, if_pos hu, if_neg hc]
        simp only [allClients, List.flatMap_cons, List.mem_append]
        rintro (h2 | h2)
        · exact hc h2
        · exact hcrest hu.symm (by simpa [allClients] using h2)
    · simp only [removeClient, if_neg hu]
      simp only [allClients, List.flatMap_cons, List.mem_append]
      rintro (h2 | h2)
      · exact hu ((hown (u, s) (by simp) c h2).symm)
      · exact ih (regWF_tail _ _ ⟨hne2, hkeys, hown, hnodup⟩)
          (by simpa [allClients] using h2)

theorem lookupEntry_isSome_iff_mem (r : Registry) (u : Nat) (hwf : RegWF r) :
    (lookupEntry r u).isSome ↔ ∃ c ∈ allClients r, c.userID = u := by
  obtain ⟨hne, hkeys, hown, hnodup⟩ := hwf
  rw [lookupEntry_isSome_iff_keys]
  constructor
  · intro hmem
    rcases List.mem_map.mp hmem with ⟨p, hp, hfst⟩
    rcases List.exists_mem_of_ne_nil p.2 (hne p hp) with ⟨c, hc⟩
    exact ⟨c, (mem_allClients r c).mpr ⟨p, hp, hc⟩, (hown p hp c hc).trans hfst⟩
  · rintro ⟨c, hc, huid⟩
    rcases (mem_allClients r c).mp hc with ⟨p, hp, hcp⟩
    have : p.1 = u := (hown p hp c hcp).symm.trans huid
    exact this ▸ List.mem_map_of_mem Prod.fst hp

theorem allClients_cons (u : Nat) (cs : List Client) (rest : Registry) :
    allClients ((u, cs) :: rest) = cs ++ allClients rest := by
  simp [allClients]

theorem not_mem_flat_of_key (u : Nat) (rest : Registry) (c : Client)
    (hkeyrest : ∀ p ∈ rest, p.1 ≠ u)
    (hown : ∀ p ∈ rest, ∀ cc ∈ p.2, cc.userID = p.1)
    (huid : c.userID = u) : c ∉ allClients rest := by
  intro hmem
  rcases (mem_allClients rest c).mp hmem with ⟨p, hp, hcp⟩
  exact hkeyrest p hp ((hown p hp c hcp).symm.trans huid)

theorem allClients_insert_perm (r : Registry) (c0 : Client) (hwf : RegWF r) :
    (allClients (insertClient r c0)).Perm
      (if c0 ∈ allClients r then allClients r else allClients r ++ [c0]) := by
  induction r with
  | nil => simp [insertClient, allClients]
  | cons q rest ih =>
    obtain ⟨u, s⟩ := q
    obtain ⟨hne2, hkeys, hown, hnodup⟩ := hwf
    have hkeyrest : ∀ p ∈ rest, p.1 ≠ u := by
      intro p hp habs
      have : u ∈ rest.map Prod.fst := habs ▸ List.mem_map_of_mem Prod.fst hp
      simp only [List.map_cons, List.nodup_cons] at hkeys
      exact hkeys.1 this
    have hownrest : ∀ p ∈ rest, ∀ cc ∈ p.2, cc.userID = p.1 :=
      fun p hp cc hcc => hown p (List.mem_cons_of_mem _ hp) cc hcc
    by_cases hu : u = c0.userID
    · have hc0rest : c0 ∉ allClients rest :=
        not_mem_flat_of_key u rest c0 hkeyrest hownrest hu.symm
      by_cases hc : c0 ∈ s
      · simp only [insertClient, if_pos hu, if_pos hc, allClients_cons]
        rw [if_pos (List.mem_append.mpr (Or.inl hc))]
      · simp only [insertClient, if_pos hu, if_neg hc, allClients_cons]
        rw [if_neg (by simp [hc, hc0rest])]
        rw [List.append_assoc, List.append_assoc]
        exact List.Perm.append_left s List.perm_append_comm
    · have hc0s : c0 ∉ s := by
        intro habs
        exact hu ((hown (u, s) (by simp) c0 habs).symm)
      simp only [insertClient, if_neg hu, allClients_cons]
      have ihr := ih (regWF_tail _ _ ⟨hne2, hkeys, hown, hnodup⟩)
      by_cases hcr : c0 ∈ allClients rest
      · rw [if_pos hcr] at ihr
        rw [if_pos (List.mem_append.mpr (Or.inr hcr))]
        exact List.Perm.append_left s ihr
      · rw [if_neg hcr] at ihr
        rw [if_neg (by simp [hc0s, hcr])]
        rw [List.append_assoc]
        exact List.Perm.append_left s ihr

theorem allClients_remove_sublist (r : Registry) (c : Client) :
    (allClients (removeClient r c).1).Sublist (allClients r) := by
  induction r with
  | nil => simp [removeClient]
  | cons q rest ih =>
    obtain ⟨u, s⟩ := q
    by_cases hu : u = c.userID
    · by_cases hc : c ∈ s
      · simp only [removeClient, if_pos hu, if_pos hc]
        split
        · rw [allClients_cons]
          exact List.sublist_append_right s (allClients rest)
        · rw [allClients_cons, allClients_cons]
          exact List.Sublist.append (List.erase_sublist c s) (List.Sublist.refl _)
      · simp only [removeClient, if_pos hu, if_neg hc]
        exact List.Sublist.refl _
    · simp only [removeClient, if_neg hu]
      rw [allClients_cons, allClients_cons]
      exact List.Sublist.append (List.Sublist.refl s) ih

theorem hubFold_invariant (ops : List HubOp) (s : HubState) (live : List Client)
    (hwf : RegWF s.registry)
    (hcorr : ∀ c, c ∈ allClients s.registry ↔ c ∈ live)
    (hlive : live.Nodup)
    (hcid : ((allClients s.registry).map (fun c => c.cid)).Nodup)
    (hcons : ∀ c1 ∈ allClients s.registry, ∀ c2 ∈ ops.map HubOp.client,
        c1.cid = c2.cid → c1.userID = c2.userID)
    (hops : CidConsistent ops) :
    RegWF (ops.foldl hubStep s).registry ∧
    (∀ c, c ∈ allClients (ops.foldl hubStep s).registry ↔
        c ∈ ops.foldl specLiveStep live) ∧
    ((allClients (ops.foldl hubStep s).registry).map (fun c => c.cid)).Nodup := by
  induction ops generalizing s live with
  | nil => exact ⟨hwf, hcorr, hcid⟩
  | cons op rest ih =>
    simp only [List.foldl_cons]
    have hopsrest : CidConsistent rest := by
      intro c1 h1 c2 h2
      exact hops c1 (by simp only [List.map_cons]; exact List.mem_cons_of_mem _ h1)
        c2 (by simp only [List.map_cons]; exact List.mem_cons_of_mem _ h2)
    have hopmem : op.client ∈ (op :: rest).map HubOp.client := by
      simp [List.map_cons]
    cases op with
    | register c0 =>
      have hreg : hubStep s (.register c0) =
          { s with registry := insertClient s.registry c0 } := rfl
      rw [hreg]
      apply ih
      · exact regWF_insert _ _ hwf
      · intro c
        rw [mem_allClients_insert]
        simp only [specLiveStep]
        split
        · next hc0live =>
          rw [hcorr c]
          constructor
          · rintro (h2 | h2)
            · exact h2
            · exact h2 ▸ hc0live
          · exact Or.inl
        · rw [hcorr c]
          simp [List.mem_append]
      · simp only [specLiveStep]
        split
        · exact hlive
        · next hc0live =>
          refine List.Nodup.append hlive (by simp) ?_
          intro a ha hb
          simp only [List.mem_singleton] at hb
          subst hb
          exact hc0live ha
      · have hperm := (allClients_insert_perm s.registry c0 hwf).map
          (fun c => c.cid)
        rw [List.Perm.nodup_iff hperm]
        split
        · exact hcid
        · next hc0 =>
          rw [List.map_append]
          refine List.Nodup.append hcid (by simp) ?_
          intro a ha hb
          simp only [List.map_cons, List.map_nil, List.mem_singleton] at hb
          subst hb
          rcases List.mem_map.mp ha with ⟨c1, hc1, hcc⟩
          have huid : c1.userID = c0.userID :=
            hcons c1 hc1 c0 hopmem hcc
          have heq : c1 = c0 := by
            cases c1
            cases c0
            simp only at hcc huid
            simp [hcc, huid]
          exact hc0 (heq ▸ hc1)
      · intro c1 h1 c2 h2
        rw [mem_allClients_insert] at h1
        rcases h1 with h1 | h1
        · exact hcons c1 h1 c2
            (by simp only [List.map_cons]; exact List.mem_cons_of_mem _ h2)
        · subst h1
          exact hops c1 hopmem c2
            (by simp only [List.map_cons]; exact List.mem_cons_of_mem _ h2)
      · exact hopsrest
    | deregister c0 =>
      have hdreg : hubStep s (.deregister c0) =
          { registry := (removeClient s.registry c0).1,
            closed := s.closed ++
              (if (removeClient s.registry c0).2 then [c0] else []) } := rfl
      rw [hdreg]
      have hsub := allClients_remove_sublist s.registry c0
      apply ih
      · exact regWF_remove _ _ hwf
      · intro c
        simp only [specLiveStep]
        by_cases hcc : c = c0
        · subst hcc
          constructor
          · intro h2
            exact absurd h2 (not_mem_removeClient _ _ hwf)
          · intro h2
            exact absurd h2 (hlive.not_mem_erase)
        · rw [mem_removeClient_of_ne _ _ _ hcc, List.mem_erase_of_ne hcc]
          exact hcorr c
      · exact hlive.erase c0
      · exact hcid.sublist (hsub.map (fun c => c.cid))
      · intro c1 h1 c2 h2
        exact hcons c1 (hsub.subset h1) c2
          (by simp only [List.map_cons]; exact List.mem_cons_of_mem _ h2)
      · exact hopsrest

/-- C1: for every pointer-consistent sequence of register and deregister
operations, the user-to-connection-set mapping has an entry for a user
exactly when that user has at least one live connection (live in the
sense of the spec: registered and not since deregistered), every stored
set is nonempty (empty sets are pruned at once), and no connection
identity appears twice under any user or under more than one user. -/
theorem registry_set_invariant (ops : List HubOp) (hops : CidConsistent ops) :
    (∀ u, (lookupEntry (hubRun ops).registry u).isSome ↔
        ∃ c ∈ specLive ops, c.userID = u) ∧
    (∀ p ∈ (hubRun ops).registry, p.2 ≠ []) ∧
    ((allClients (hubRun ops).registry).map (fun c => c.cid)).Nodup := by
  unfold hubRun specLive
  have hbase := hubFold_invariant ops { registry := [], closed := [] } []
    ⟨by simp, by simp, by simp, by simp⟩
    (by intro c; simp [allClients])
    (by simp)
    (by simp [allClients])
    (by intro c1 h1; simp [allClients] at h1)
    hops
  obtain ⟨hwf, hcorr, hcid⟩ := hbase
  refine ⟨?_, hwf.1, hcid⟩
  intro u
  rw [lookupEntry_isSome_iff_mem _ u hwf]
  constructor
  · rintro ⟨c, hc, huid⟩
    exact ⟨c, (hcorr c).mp hc, huid⟩
  · rintro ⟨c, hc, huid⟩
    exact ⟨c, (hcorr c).mpr hc, huid⟩

/-- A concrete pointer-consistent lifecycle sequence. -/
def opsW : List HubOp :=
  [.register { cid := 1, userID := 7 }, .register { cid := 2, userID := 7 },
   .register { cid := 3, userID := 8 }, .deregister { cid := 1, userID := 7 },
   .deregister { cid := 3, userID := 8 },
   .deregister { cid := 3, userID := 8 }]

/-- Witness for the registry invariant at a concrete operation sequence. -/
theorem registry_set_invariant_witness :
    (∀ u, (lookupEntry (hubRun opsW).registry u).isSome ↔
        ∃ c ∈ specLive opsW, c.userID = u) ∧
    (∀ p ∈ (hubRun opsW).registry, p.2 ≠ []) ∧
    ((allClients (hubRun opsW).registry).map (fun c => c.cid)).Nodup :=
  registry_set_invariant opsW (by unfold CidConsistent; decide)

theorem removeClient_removed_iff (r : Registry) (c : Client) (hwf : RegWF r) :
    (removeClient r c).2 = true ↔ c ∈ allClients r := by
  induction r with
  | nil => simp [removeClient, allClients]
  | cons q rest ih =>
    obtain ⟨u, s⟩ := q
    obtain ⟨hne2, hkeys, hown, hnodup⟩ := hwf
    have hkeyrest : ∀ p ∈ rest, p.1 ≠ u := by
      intro p hp habs
      have : u ∈ rest.map Prod.fst := habs ▸ List.mem_map_of_mem Prod.fst hp
      simp only [List.map_cons, List.nodup_cons] at hkeys
      exact hkeys.1 this
    have hownrest : ∀ p ∈ rest, ∀ cc ∈ p.2, cc.userID = p.1 :=
      fun p hp cc hcc => hown p (List.mem_cons_of_mem _ hp) cc hcc
    rw [allClients_cons]
    by_cases hu : u = c.userID
    · have hcrest : c ∉ allClients rest :=
        not_mem_flat_of_key u rest c hkeyrest hownrest hu.symm
      by_cases hc : c ∈ s
      · simp only [removeClient, if_pos hu, if_pos hc]
        simp [hc]
      · simp only [removeClient, if_pos hu, if_neg hc]
        simp [hc, hcrest]
    · have hcs : c ∉ s := by
        intro habs
        exact hu ((hown (u, s) (by simp) c habs).symm)
      simp only [removeClient, if_neg hu]
      rw [ih (regWF_tail _ _ ⟨hne2, hkeys, hown, hnodup⟩)]
      simp [hcs]

theorem hubStep_wf (s : HubState) (op : HubOp) (hwf : RegWF s.registry) :
    RegWF (hubStep s op).registry := by
  cases op with
  | register c => exact regWF_insert _ _ hwf
  | deregister c => exact regWF_remove _ _ hwf

/-- The number of register operations for a given client in a sequence. -/
def registerCount (ops : List HubOp) (c : Client) : Nat :=
  (ops.filter (fun op => op = HubOp.register c)).length

theorem closedCount_bound (ops : List HubOp) (s : HubState) (c : Client)
    (hwf : RegWF s.registry) :
    (ops.foldl hubStep s).closed.count c +
      (if c ∈ allClients (ops.foldl hubStep s).registry then 1 else 0) ≤
    s.closed.count c + (if c ∈ allClients s.registry then 1 else 0) +
      registerCount ops c := by
  induction ops generalizing s with
  | nil => simp [registerCount]
  | cons op rest ih =>
    simp only [List.foldl_cons]
    refine le_trans (ih (hubStep s op) (hubStep_wf s op hwf)) ?_
    have hrc : registerCount (op :: rest) c =
        (if op = HubOp.register c then 1 else 0) + registerCount rest c := by
      by_cases hop : op = HubOp.register c
      · simp [registerCount, List.filter_cons, hop, Nat.add_comm]
      · simp [registerCount, List.filter_cons, hop]
    rw [hrc]
    cases op with
    | register c0 =>
      have hcl : (hubStep s (.register c0)).closed = s.closed := rfl
      have hmem : c ∈ allClients (hubStep s (.register c0)).registry ↔
          c ∈ allClients s.registry ∨ c = c0 := mem_allClients_insert _ _ _
      by_cases hcc : c = c0
      · subst hcc
        have : (if HubOp.register c = HubOp.register c then 1 else 0) = 1 := by simp
        rw [hcl, this]
        by_cases hin : c ∈ allClients s.registry
        · rw [if_pos (hmem.mpr (Or.inl hin)), if_pos hin]
          omega
        · rw [if_pos (hmem.mpr (Or.inr rfl)), if_neg hin]
          omega
      · have : (if HubOp.register c0 = HubOp.register c then 1 else 0) = 0 := by
          simp
          intro habs
          exact absurd habs.symm hcc
        rw [hcl, this]
        have hmem2 : c ∈ allClients (hubStep s (.register c0)).registry ↔
            c ∈ allClients s.registry := by
          rw [hmem]
          simp [hcc]
        rw [if_congr hmem2 rfl rfl]
        omega
    | deregister c0 =>
      have : (if HubOp.deregister c0 = HubOp.register c then 1 else 0) = 0 := by
        simp
      rw [this]
      have hcl : (hubStep s (.deregister c0)).closed =
          s.closed ++ (if (removeClient s.registry c0).2 then [c0] else []) := rfl
      have hreg : (hubStep s (.deregister c0)).registry =
          (removeClient s.registry c0).1 := rfl
      by_cases hcc : c = c0
      · subst hcc
        rw [hcl, hreg, List.count_append]
        have hnm : c ∉ allClients (removeClient s.registry c).1 :=
          not_mem_removeClient _ _ hwf
        rw [if_neg hnm]
        by_cases hin : c ∈ allClients s.registry
        · rw [if_pos hin]
          have : (removeClient s.registry c).2 = true :=
            (removeClient_removed_iff _ _ hwf).mpr hin
          rw [this]
          simp [List.count_singleton]
        · rw [if_neg hin]
          have : (removeClient s.registry c).2 = false := by
            rw [← Bool.not_eq_true]
            intro habs
            exact hin ((removeClient_removed_iff _ _ hwf).mp habs)
          rw [this]
          simp
      · rw [hcl, hreg, List.count_append]
        have hc2 : List.count c (if (removeClient s.registry c0).2 = true
            then [c0] else []) = 0 := by
          split
          · rw [List.count_eq_zero]
            simp [hcc]
          · simp
        rw [hc2]
        rw [if_congr (mem_removeClient_of_ne _ _ _ hcc) rfl rfl]
        omega

/-- C9: deregistering a connection that is not present in the registry is
a no-op (the registry and the close log are unchanged), and under any
lifecycle sequence that registers a connection at most once, that
connection send channel is closed at most once. -/
theorem deregistration_idempotent :
    (∀ (s : HubState) (c : Client), c ∉ allClients s.registry →
        hubStep s (.deregister c) = s) ∧
    (∀ (ops : List HubOp) (c : Client), registerCount ops c ≤ 1 →
        (hubRun ops).closed.count c ≤ 1) := by
  constructor
  · intro s c hnm
    show (let p := removeClient s.registry c
      { registry := p.1, closed := s.closed ++ (if p.2 then [c] else []) }) = s
    rw [removeClient_not_mem_eq s.registry c hnm]
    simp
  · intro ops c hreg
    have h := closedCount_bound ops { registry := [], closed := [] } c
      ⟨by simp, by simp, by simp, by simp⟩
    have h3 : (hubRun ops).closed.count c +
        (if c ∈ allClients (hubRun ops).registry then 1 else 0) ≤
        registerCount ops c := by
      unfold hubRun
      simpa [allClients] using h
    omega

/-- Witness for deregistration idempotence: deregistering an absent
connection leaves the state unchanged, and the doubly deregistered
connection of opsW is closed exactly once. -/
theorem deregistration_idempotent_witness :
    hubStep { registry := [(7, [{ cid := 1, userID := 7 }])], closed := [] }
        (.deregister { cid := 2, userID := 7 }) =
      { registry := [(7, [{ cid := 1, userID := 7 }])], closed := [] } ∧
    (hubRun opsW).closed.count { cid := 3, userID := 8 } ≤ 1 :=
  ⟨deregistration_idempotent.1 _ _ (by decide),
   deregistration_idempotent.2 opsW _ (by decide)⟩

/-! #### Message store theorems -/

/-- C10: for a message that is already soft-deleted or whose author is not
the caller, a content update carrying actual content and the soft-delete
operation both return the message-not-found condition and leave the
database unchanged. -/
theorem deleted_and_foreign_messages_immutable (db : DB)
    (messageID callerID now : Nat) (content : String)
    (attachmentURL : Option String)
    (hvalid : ¬(content = "" ∧ attachmentURL = none))
    (htarget : ∀ r ∈ db.messages, r.id = messageID →
        r.deletedAt ≠ none ∨ r.senderID ≠ callerID) :
    updateMessageContent db messageID callerID content attachmentURL now =
      (db, .error .messageNotFound) ∧
    softDeleteMessage db messageID callerID now =
      (db, .error .messageNotFound) := by
  have hany : db.messages.any (softDeleteCond messageID callerID) = false := by
    rw [List.any_eq_false]
    intro r hr
    simp only [softDeleteCond, Bool.decide_and, Bool.and_eq_true,
      decide_eq_true_eq, not_and]
    intro hid hsender
    rcases htarget r hr hid with h | h
    · intro habs
      exact h habs
    · exact absurd hsender h
  constructor
  · unfold updateMessageContent
    rw [if_neg hvalid, if_neg (by simp [hany])]
  · unfold softDeleteMessage
    rw [if_neg (by simp [hany])]

/-- A concrete database: message 7 in chat 10 was sent by user 2 and is
not deleted; message 8 in chat 10 was sent by user 2 and is deleted. -/
def rowLive : MessageRow :=
  { id := 7, chatID := 10, senderID := 2, content := "hi", status := .sent,
    createdAt := 3, updatedAt := 3, deletedAt := none, attachmentURL := none }

/-- A deleted row of the concrete database. -/
def rowGone : MessageRow :=
  { id := 8, chatID := 10, senderID := 2, content := "", status := .sent,
    createdAt := 4, updatedAt := 6, deletedAt := some 6,
    attachmentURL := none }

/-- The users table of the concrete database. -/
def usersW : List UserRow :=
  [{ id := 2, username := "u", email := "e", createdAt := 0, updatedAt := 0 }]

/-- The concrete database. -/
def dbW : DB := { messages := [rowLive, rowGone], users := usersW }

/-- Witness for immutability: caller 9 does not own message 7, and
message 8 is already deleted even for its author 2. -/
theorem deleted_and_foreign_messages_immutable_witness :
    (updateMessageContent dbW 7 9 "x" none 5 = (dbW, .error .messageNotFound) ∧
     softDeleteMessage dbW 7 9 5 = (dbW, .error .messageNotFound)) ∧
    (updateMessageContent dbW 8 2 "x" none 5 = (dbW, .error .messageNotFound) ∧
     softDeleteMessage dbW 8 2 5 = (dbW, .error .messageNotFound)) :=
  ⟨deleted_and_foreign_messages_immutable dbW 7 9 5 "x" none
      (by simp) (by decide),
   deleted_and_foreign_messages_immutable dbW 8 2 5 "x" none
      (by simp) (by decide)⟩

theorem mem_of_mem_insertByCreatedAtDesc (p q : MessageRow × UserRow)
    (l : List (MessageRow × UserRow)) (h : q ∈ insertByCreatedAtDesc p l) :
    q = p ∨ q ∈ l := by
  induction l with
  | nil =>
    simp only [insertByCreatedAtDesc, List.mem_singleton] at h
    exact Or.inl h
  | cons a rest ih =>
    simp only [insertByCreatedAtDesc] at h
    split at h
    · rcases List.mem_cons.mp h with h2 | h2
      · exact Or.inl h2
      · exact Or.inr h2
    · rcases List.mem_cons.mp h with h2 | h2
      · exact Or.inr (h2 ▸ List.mem_cons_self a rest)
      · rcases ih h2 with h3 | h3
        · exact Or.inl h3
        · exact Or.inr (List.mem_cons_of_mem a h3)

theorem mem_of_mem_sortByCreatedAtDesc (q : MessageRow × UserRow)
    (l : List (MessageRow × UserRow)) (h : q ∈ sortByCreatedAtDesc l) :
    q ∈ l := by
  induction l with
  | nil => simp [sortByCreatedAtDesc] at h
  | cons a rest ih =>
    simp only [sortByCreatedAtDesc] at h
    rcases mem_of_mem_insertByCreatedAtDesc a q _ h with h2 | h2
    · exact h2 ▸ List.mem_cons_self a rest
    · exact List.mem_cons_of_mem a (ih h2)

theorem joinRows_cons (r : MessageRow) (ms : List MessageRow)
    (us : List UserRow) :
    joinRows { messages := r :: ms, users := us } =
      (match us.find? (fun u => u.id = r.senderID) with
       | none => joinRows { messages := ms, users := us }
       | some u => (r, u) :: joinRows { messages := ms, users := us }) := by
  simp only [joinRows, List.filterMap_cons]
  cases us.find? (fun u => u.id = r.senderID) <;> simp

theorem mem_joinRows (db : DB) (p : MessageRow × UserRow)
    (h : p ∈ joinRows db) : p.1 ∈ db.messages := by
  rcases List.mem_filterMap.mp h with ⟨r, hr, hmap⟩
  rcases Option.map_eq_some'.mp hmap with ⟨u, hu, heq⟩
  rw [← heq]
  exact hr

theorem softDeleteApply_id (messageID senderID now : Nat) (r : MessageRow) :
    (softDeleteApply messageID senderID now r).id = r.id := by
  unfold softDeleteApply
  split <;> rfl

theorem softDeleteApply_senderID (messageID senderID now : Nat)
    (r : MessageRow) :
    (softDeleteApply messageID senderID now r).senderID = r.senderID := by
  unfold softDeleteApply
  split <;> rfl

theorem find_joinRows_softDelete (ms : List MessageRow) (us : List UserRow)
    (mid aid now : Nat) (row : MessageRow) (uRow : UserRow)
    (hrow : row ∈ ms) (hid : row.id = mid)
    (hnodup : (ms.map (fun r => r.id)).Nodup)
    (huser : us.find? (fun u => u.id = row.senderID) = some uRow) :
    (joinRows { messages := ms.map (softDeleteApply mid aid now),
                users := us }).find? (fun p => p.1.id = mid) =
      some (softDeleteApply mid aid now row, uRow) := by
  induction ms with
  | nil => simp at hrow
  | cons r rest ih =>
    simp only [List.map_cons]
    rw [joinRows_cons]
    rcases List.mem_cons.mp hrow with hr | hr
    · subst hr
      rw [softDeleteApply_senderID, huser]
      simp only
      rw [List.find?_cons_of_pos _ (by
        simp [softDeleteApply_id, hid])]
    · have hrne : r.id ≠ mid := by
        intro habs
        simp only [List.map_cons, List.nodup_cons] at hnodup
        exact hnodup.1 (habs.trans hid.symm ▸
          List.mem_map_of_mem (fun r2 => r2.id) hr)
      have htail := ih hr (by
        simp only [List.map_cons, List.nodup_cons] at hnodup
        exact hnodup.2)
      cases hfu : us.find? (fun u => u.id =
          (softDeleteApply mid aid now r).senderID) with
      | none => exact htail
      | some u2 =>
        rw [List.find?_cons_of_neg _ (by
          simp [softDeleteApply_id, hrne])]
        exact htail

/-- C8: deleting a non-deleted message as its author clears content and
attachment and sets the deletion timestamp while keeping the record (the
table row count is unchanged); the returned message and every subsequent
fetch of that message, by identity or in chat history, reports it deleted
with empty content. -/
theorem soft_delete_spec (db : DB) (messageID authorID now : Nat)
    (row : MessageRow) (uRow : UserRow)
    (hrow : row ∈ db.messages) (hid : row.id = messageID)
    (hsender : row.senderID = authorID) (hdel : row.deletedAt = none)
    (hnodup : (db.messages.map (fun r => r.id)).Nodup)
    (huser : db.users.find? (fun u => u.id = row.senderID) = some uRow) :
    ((softDeleteMessage db messageID authorID now).1.messages.length =
        db.messages.length) ∧
    (∃ m : Message,
      (softDeleteMessage db messageID authorID now).2 = .ok m ∧
      getMessageByID (softDeleteMessage db messageID authorID now).1
          messageID = .ok m ∧
      m.isDeleted = true ∧ m.content = "" ∧ m.attachmentURL = none ∧
      m.deletedAt = some now) ∧
    (∀ chatID limit offset,
      ∀ m ∈ getMessagesByChatID
          (softDeleteMessage db messageID authorID now).1 chatID limit offset,
        m.id = messageID → m.isDeleted = true ∧ m.content = "") := by
  have hcond : softDeleteCond messageID authorID row = true := by
    simp [softDeleteCond, hid, hsender, hdel]
  have hany : db.messages.any (softDeleteCond messageID authorID) = true :=
    List.any_eq_true.mpr ⟨row, hrow, hcond⟩
  have hout : softDeleteMessage db messageID authorID now =
      ({ db with messages :=
          db.messages.map (softDeleteApply messageID authorID now) },
       getMessageByID
         { db with messages :=
             db.messages.map (softDeleteApply messageID authorID now) }
         messageID) := by
    unfold softDeleteMessage
    rw [if_pos (by simp [hany])]
  rw [hout]
  have happ : softDeleteApply messageID authorID now row =
      { row with deletedAt := some now, updatedAt := now,
                 content := "", attachmentURL := none } := by
    simp [softDeleteApply, hcond]
  have hfind := find_joinRows_softDelete db.messages db.users messageID
    authorID now row uRow hrow hid hnodup huser
  have hget : getMessageByID
      { db with messages :=
          db.messages.map (softDeleteApply messageID authorID now) }
      messageID =
      .ok (scanMessageWithSender
        (softDeleteApply messageID authorID now row) uRow) := by
    unfold getMessageByID
    rw [show joinRows
        { db with messages :=
            db.messages.map (softDeleteApply messageID authorID now) } =
        joinRows
        { messages := db.messages.map (softDeleteApply messageID authorID now),
          users := db.users } from rfl]
    rw [hfind]
  refine ⟨by simp, ⟨scanMessageWithSender
      (softDeleteApply messageID authorID now row) uRow,
    hget, hget, ?_, ?_, ?_, ?_⟩, ?_⟩
  · rw [happ]
    simp [scanMessageWithSender]
  · rw [happ]
    simp [scanMessageWithSender]
  · rw [happ]
    simp [scanMessageWithSender]
  · rw [happ]
    simp [scanMessageWithSender]
  · intro chatID limit offset m hm hmid
    unfold getMessagesByChatID at hm
    rcases List.mem_map.mp hm with ⟨p, hp, hscan⟩
    have hpj : p ∈ joinRows
        { db with messages :=
            db.messages.map (softDeleteApply messageID authorID now) } :=
      List.mem_of_mem_filter
        (mem_of_mem_sortByCreatedAtDesc p _
          (List.mem_of_mem_drop (List.mem_of_mem_take hp)))
    have hp1 : p.1 ∈ db.messages.map (softDeleteApply messageID authorID now) :=
      mem_joinRows _ p hpj
    rcases List.mem_map.mp hp1 with ⟨r0, hr0, hgr0⟩
    have hmid2 : m.id = p.1.id := by
      rw [← hscan]
      rfl
    have hidr0 : r0.id = messageID := by
      rw [← softDeleteApply_id messageID authorID now r0, hgr0, ← hmid2, hmid]
    have hr0row : r0 = row :=
      List.inj_on_of_nodup_map hnodup hr0 hrow (by rw [hidr0, hid])
    subst hr0row
    have hp1e : p.1 =
        { r0 with deletedAt := some now, updatedAt := now,
                  content := "", attachmentURL := none } := by
      rw [← hgr0, happ]
    constructor
    · rw [← hscan]
      simp [scanMessageWithSender, hp1e]
    · rw [← hscan]
      simp [scanMessageWithSender, hp1e]

/-- Witness for the soft-delete theorem: author 2 deletes message 7 of the
concrete database. -/
theorem soft_delete_spec_witness :
    ((softDeleteMessage dbW 7 2 9).1.messages.length =
        dbW.messages.length) ∧
    (∃ m : Message,
      (softDeleteMessage dbW 7 2 9).2 = .ok m ∧
      getMessageByID (softDeleteMessage dbW 7 2 9).1 7 = .ok m ∧
      m.isDeleted = true ∧ m.content = "" ∧ m.attachmentURL = none ∧
      m.deletedAt = some 9) ∧
    (∀ chatID limit offset,
      ∀ m ∈ getMessagesByChatID (softDeleteMessage dbW 7 2 9).1
          chatID limit offset,
        m.id = 7 → m.isDeleted = true ∧ m.content = "") :=
  soft_delete_spec dbW 7 2 9 rowLive
    { id := 2, username := "u", email := "e", createdAt := 0, updatedAt := 0 }
    (by decide) rfl rfl rfl (by decide) (by decide)

end BlinkChat
